import Mathlib

/-! Verification development for the core of the cv pipeline: the transcript
segmentation engine (tag extraction, span resolution, span merging, cluster
assembly), the ordered score-parser cascade, and the latest-run consolidation
algorithm. Python primitives are embedded as executable Lean functions;
fallible Python operations return `Except` values tagged with the exception
class they raise, and `try/except` blocks are embedded explicitly so that
totality claims are about real catch coverage. Machine floats of the source
are modelled as exact rationals; all values appearing in the claims are
exactly representable. -/

/-- Exception classes relevant to the embedded code. `json.JSONDecodeError`
is a subclass of `ValueError` and is folded into it. -/
inductive PyErr where
  | attributeError
  | valueError
  | keyError
  | typeError
deriving DecidableEq

/-- Python `\s` (ASCII range): space and the characters 9..13. -/
def isPySpace (c : Char) : Bool := c = ' ' || (9 ≤ c.toNat && c.toNat ≤ 13)

/-- Python `str.strip()`: remove leading and trailing whitespace. -/
def pyStrip (s : String) : String :=
  String.mk (((s.data.dropWhile isPySpace).reverse.dropWhile isPySpace).reverse)

/-- Numeric value of a run of decimal digit characters. -/
def digitsToNat (cs : List Char) : ℕ :=
  cs.foldl (fun a c => a * 10 + (c.toNat - 48)) 0

/-- Exponent suffix of a float literal: `e`/`E`, optional sign, digits. -/
def expDigits (ds : List Char) (base : ℚ) (sign : ℤ) : Option ℚ :=
  if !ds.isEmpty && ds.all Char.isDigit then
    some (base * (10 : ℚ) ^ (sign * (digitsToNat ds : ℤ)))
  else none

/-- Optional exponent part after the mantissa of a float literal. -/
def expPart (cs : List Char) (base : ℚ) : Option ℚ :=
  match cs with
  | [] => some base
  | c :: rest =>
    if c = 'e' ∨ c = 'E' then
      match rest with
      | '+' :: ds => expDigits ds base 1
      | '-' :: ds => expDigits ds base (-1)
      | ds => expDigits ds base 1
    else none

/-- Unsigned part of a Python float literal: digits, optional point and
fraction digits, optional exponent. Non-finite floats (`inf`, `nan`) are not
representable as rationals and are modelled as parse failures; no claim
evaluates the code on such inputs. -/
def pyFloatCore (cs : List Char) : Option ℚ :=
  let ip := cs.takeWhile Char.isDigit
  let rest1 := cs.dropWhile Char.isDigit
  match rest1 with
  | [] => if ip.isEmpty then none else some ((digitsToNat ip : ℚ))
  | '.' :: rest2 =>
    let fp := rest2.takeWhile Char.isDigit
    let rest3 := rest2.dropWhile Char.isDigit
    if ip.isEmpty && fp.isEmpty then none
    else expPart rest3 ((digitsToNat ip : ℚ) + (digitsToNat fp : ℚ) / (10 : ℚ) ^ fp.length)
  | _ => if ip.isEmpty then none else expPart rest1 ((digitsToNat ip : ℚ))

/-- Python `float(s)`: surrounding whitespace allowed, optional sign. -/
def pyFloat (s : String) : Option ℚ :=
  match (pyStrip s).data with
  | '+' :: cs => pyFloatCore cs
  | '-' :: cs => (pyFloatCore cs).map Neg.neg
  | cs => pyFloatCore cs

/-- Python `float(s)` as a raising operation: failure raises `ValueError`. -/
def pyFloatE (s : String) : Except PyErr ℚ :=
  match pyFloat s with
  | some q => .ok q
  | none => .error .valueError

/-- Python `int(s)`: surrounding whitespace, optional sign, decimal digits. -/
def pyInt (s : String) : Option ℤ :=
  match (pyStrip s).data with
  | '+' :: cs => if !cs.isEmpty && cs.all Char.isDigit then some ((digitsToNat cs : ℤ)) else none
  | '-' :: cs => if !cs.isEmpty && cs.all Char.isDigit then some (-(digitsToNat cs : ℤ)) else none
  | cs => if !cs.isEmpty && cs.all Char.isDigit then some ((digitsToNat cs : ℤ)) else none

/-- Python `int(s)` as a raising operation: failure raises `ValueError`. -/
def pyIntE (s : String) : Except PyErr ℤ :=
  match pyInt s with
  | some n => .ok n
  | none => .error .valueError

/-- Python `int(f)` on a float: truncation toward zero. -/
def py_trunc (q : ℚ) : ℤ := if q < 0 then ⌈q⌉ else ⌊q⌋

/-- JSON values as produced by `json.loads`. Objects are modelled flat
(scalar-valued fields): the brace-extraction pattern of the source explicitly
does not support nested objects, and no claim involves nested documents. -/
inductive JsonVal where
  | null
  | jbool (b : Bool)
  | num (q : ℚ)
  | str (s : String)
  | obj (fields : List (String × JsonVal))

/-- The opening curly brace character. -/
def openBraceCh : Char := Char.ofNat 123

/-- The closing curly brace character. -/
def closeBraceCh : Char := Char.ofNat 125

/-- The double-quote character. -/
def quoteCh : Char := Char.ofNat 34

/-- JSON insignificant whitespace. -/
def jsonWs (c : Char) : Bool := c = ' ' || c = '\t' || c = '\n' || c = '\r'

/-- Characters of a JSON string after the opening quote, up to the closing
quote; escape sequences are not modelled (no claim involves them). Returns
the string contents and the remaining input. -/
def jStrChars : List Char → Option (List Char × List Char)
  | [] => none
  | c :: rest =>
    if c = quoteCh then some ([], rest)
    else (jStrChars rest).map (fun p => (c :: p.1, p.2))

/-- JSON number grammar: optional minus, `0` or nonzero-led digits, optional
fraction, optional exponent. Returns the value and remaining input. -/
def parseJNum (cs : List Char) : Option (ℚ × List Char) :=
  let core : List Char → Option (ℚ × List Char) := fun cs0 =>
    match cs0 with
    | [] => none
    | c :: _ =>
      if !c.isDigit then none
      else if c = '0' && ((cs0.drop 1).headD ' ').isDigit then none
      else
        let ip := cs0.takeWhile Char.isDigit
        let rest1 := cs0.dropWhile Char.isDigit
        match rest1 with
        | '.' :: rest2 =>
          let fp := rest2.takeWhile Char.isDigit
          let rest3 := rest2.dropWhile Char.isDigit
          if fp.isEmpty then none
          else
            let base := (digitsToNat ip : ℚ) + (digitsToNat fp : ℚ) / (10 : ℚ) ^ fp.length
            match rest3 with
            | e :: rest4 =>
              if e = 'e' ∨ e = 'E' then
                match rest4 with
                | '+' :: ds =>
                  let ed := ds.takeWhile Char.isDigit
                  if ed.isEmpty then none
                  else some (base * (10 : ℚ) ^ ((digitsToNat ed : ℤ)), ds.dropWhile Char.isDigit)
                | '-' :: ds =>
                  let ed := ds.takeWhile Char.isDigit
                  if ed.isEmpty then none
                  else some (base * (10 : ℚ) ^ (-(digitsToNat ed : ℤ)), ds.dropWhile Char.isDigit)
                | ds =>
                  let ed := ds.takeWhile Char.isDigit
                  if ed.isEmpty then none
                  else some (base * (10 : ℚ) ^ ((digitsToNat ed : ℤ)), ds.dropWhile Char.isDigit)
              else some (base, rest3)
            | [] => some (base, [])
        | e :: rest2 =>
          if e = 'e' ∨ e = 'E' then
            let base := ((digitsToNat ip : ℚ))
            match rest2 with
            | '+' :: ds =>
              let ed := ds.takeWhile Char.isDigit
              if ed.isEmpty then none
              else some (base * (10 : ℚ) ^ ((digitsToNat ed : ℤ)), ds.dropWhile Char.isDigit)
            | '-' :: ds =>
              let ed := ds.takeWhile Char.isDigit
              if ed.isEmpty then none
              else some (base * (10 : ℚ) ^ (-(digitsToNat ed : ℤ)), ds.dropWhile Char.isDigit)
            | ds =>
              let ed := ds.takeWhile Char.isDigit
              if ed.isEmpty then none
              else some (base * (10 : ℚ) ^ ((digitsToNat ed : ℤ)), ds.dropWhile Char.isDigit)
          else some ((digitsToNat ip : ℚ), rest1)
        | [] => some ((digitsToNat ip : ℚ), [])
  match cs with
  | '-' :: rest => (core rest).map (fun p => (-p.1, p.2))
  | _ => core cs

/-- A scalar JSON value: `null`, booleans, strings, numbers. -/
def parseScalar (cs : List Char) : Option (JsonVal × List Char) :=
  match cs with
  | 'n' :: 'u' :: 'l' :: 'l' :: rest => some (.null, rest)
  | 't' :: 'r' :: 'u' :: 'e' :: rest => some (.jbool true, rest)
  | 'f' :: 'a' :: 'l' :: 's' :: 'e' :: rest => some (.jbool false, rest)
  | cs2 =>
    match cs2 with
    | c :: rest =>
      if c = quoteCh then (jStrChars rest).map (fun p => (.str (String.mk p.1), p.2))
      else (parseJNum cs2).map (fun p => (.num p.1, p.2))
    | [] => none

/-- Members of a JSON object, after the opening brace (which the caller has
consumed); fuel bounds the recursion and exceeds any possible member count. -/
def parseMembersAux : ℕ → List Char → Option (List (String × JsonVal) × List Char)
  | 0, _ => none
  | fuel + 1, cs =>
    match (cs.dropWhile jsonWs) with
    | c :: rest =>
      if c ≠ quoteCh then none else
      match jStrChars rest with
      | none => none
      | some (key, rest2) =>
        match rest2.dropWhile jsonWs with
        | ':' :: rest4 =>
          match parseScalar (rest4.dropWhile jsonWs) with
          | none => none
          | some (v, rest5) =>
            match rest5.dropWhile jsonWs with
            | ',' :: rest7 =>
              (parseMembersAux fuel rest7).map
                (fun p => ((String.mk key, v) :: p.1, p.2))
            | c :: rest7 =>
              if c = closeBraceCh then some ([(String.mk key, v)], rest7) else none
            | [] => none
        | _ => none
    | [] => none

/-- A JSON object, after the opening brace has been consumed. -/
def parseJObj (cs : List Char) : Option (JsonVal × List Char) :=
  match cs.dropWhile jsonWs with
  | c :: rest =>
    if c = closeBraceCh then some (.obj [], rest)
    else (parseMembersAux (cs.length + 1) cs).map (fun p => (.obj p.1, p.2))
  | [] => none

/-- Python `json.loads(s)`: a single JSON document with surrounding
whitespace and nothing else. -/
def pyJsonLoads (s : String) : Option JsonVal :=
  let cs := s.data.dropWhile jsonWs
  let parsed : Option (JsonVal × List Char) :=
    match cs with
    | c :: rest => if c = openBraceCh then parseJObj rest else parseScalar cs
    | [] => none
  match parsed with
  | some (v, rest) => if (rest.dropWhile jsonWs).isEmpty then some v else none
  | none => none

/-- `json.loads` as a raising operation: failure raises `JSONDecodeError`,
a `ValueError`. -/
def jsonLoadsE (s : String) : Except PyErr JsonVal :=
  match pyJsonLoads s with
  | some v => .ok v
  | none => .error .valueError

/-- Python subscript `v[key]` with a string key: `KeyError` when the key is
absent from a dict, `TypeError` on any non-dict value. -/
def subscriptE : JsonVal → String → Except PyErr JsonVal
  | .obj fs, k =>
    match fs.lookup k with
    | some v => .ok v
    | none => .error .keyError
  | _, _ => .error .typeError

/-- Content of a brace-delimited group up to and including the next closing
brace; fails at a newline or end of input, since `.` in the extraction
pattern does not match newlines. -/
def upToClose : List Char → Option (List Char × List Char)
  | [] => none
  | c :: rest =>
    if c = closeBraceCh then some ([c], rest)
    else if c = '\n' then none
    else (upToClose rest).map (fun p => (c :: p.1, p.2))

/-- Scanner for `re.findall` with the brace-extraction pattern of
`JSONParser` (an opening brace, a lazy run of non-newline characters, a
closing brace): leftmost non-overlapping matches. Fuel bounds the recursion
and exceeds the input length. -/
def findBracesAux : ℕ → List Char → List String
  | 0, _ => []
  | _, [] => []
  | fuel + 1, c :: rest =>
    if c = openBraceCh then
      match upToClose rest with
      | some (content, after) => String.mk (c :: content) :: findBracesAux fuel after
      | none => findBracesAux fuel rest
    else findBracesAux fuel rest

/-- All brace-delimited substrings of `s`, as found by the extraction
pattern of `JSONParser`. -/
def findBraces (s : String) : List String := findBracesAux s.data.length s.data

/-- Lowercase an ASCII letter; other characters unchanged. -/
def lowerCh (c : Char) : Char :=
  if 'A' ≤ c ∧ c ≤ 'Z' then Char.ofNat (c.toNat + 32) else c

/-- Case-insensitive character comparison (the source compiles all its
patterns with `re.IGNORECASE`). -/
def ciEqCh (a b : Char) : Bool := lowerCh a == lowerCh b

/-- Match a literal pattern case-insensitively at the head of the input,
returning the remaining input. -/
def matchLit : List Char → List Char → Option (List Char)
  | [], cs => some cs
  | _ :: _, [] => none
  | p :: ps, c :: cs => if ciEqCh p c then matchLit ps cs else none

/-- Consume one optional occurrence of a character (regex `x?`). For the
patterns embedded here this greedy, non-backtracking reading is equivalent to
the regex because the optional character is always distinct from every
character the rest of the pattern can start with. -/
def skipOptCh (q : Char) (cs : List Char) : List Char :=
  match cs with
  | c :: rest => if c = q then rest else cs
  | [] => []

/-- Python `\w` (ASCII range): letters, digits, underscore. -/
def isWordCh (c : Char) : Bool := c.isAlphanum || c = '_'


/-- Capture of a regex group `(\w+)`: a maximal nonempty run of word
characters, returned with the remaining input. -/
def capWord (cs : List Char) : Option (String × List Char) :=
  let w := cs.takeWhile isWordCh
  if w.isEmpty then none else some (String.mk w, cs.dropWhile isWordCh)

/-- Matcher at one position for the pattern: optional quote, `score`,
optional quote, spaces, colon, spaces, optional quote, captured word run. -/
def scoreColonAt (cs : List Char) : Option String :=
  match matchLit "score".data (skipOptCh quoteCh cs) with
  | none => none
  | some cs1 =>
    match (skipOptCh quoteCh cs1).dropWhile isPySpace with
    | ':' :: cs3 => (capWord (skipOptCh quoteCh (cs3.dropWhile isPySpace))).map Prod.fst
    | _ => none

/-- Matcher at one position for a label pattern: a literal label (already
including its colon), spaces, optional quote, captured word run. -/
def labelColonAt (label : List Char) (cs : List Char) : Option String :=
  match matchLit label cs with
  | none => none
  | some cs1 => (capWord (skipOptCh quoteCh (cs1.dropWhile isPySpace))).map Prod.fst

/-- Matcher at one position for the pattern `score is`, optional colon,
spaces, optional quote, captured word run. -/
def scoreIsAt (cs : List Char) : Option String :=
  match matchLit "score is".data cs with
  | none => none
  | some cs1 =>
    (capWord (skipOptCh quoteCh ((skipOptCh ':' cs1).dropWhile isPySpace))).map Prod.fst

/-- Matcher at one position for the braced pattern: opening brace, spaces,
optional quote, `score`, optional quote, spaces, colon, spaces, optional
quote, captured word run, optional quote, spaces, closing brace. -/
def braceScoreAt (cs : List Char) : Option String :=
  match cs with
  | [] => none
  | c :: cs0 =>
    if c = openBraceCh then
      match matchLit "score".data (skipOptCh quoteCh (cs0.dropWhile isPySpace)) with
      | none => none
      | some cs1 =>
        match (skipOptCh quoteCh cs1).dropWhile isPySpace with
        | ':' :: cs3 =>
          match capWord (skipOptCh quoteCh (cs3.dropWhile isPySpace)) with
          | none => none
          | some (cap, cs4) =>
            match (skipOptCh quoteCh cs4).dropWhile isPySpace with
            | c2 :: _ => if c2 = closeBraceCh then some cap else none
            | [] => none
        | _ => none
    else none

/-- Matcher at one position for the braced pattern whose value quotes are
mandatory and whose closing brace is optional: opening brace, spaces,
optional quote, `score`, optional quote, spaces, colon, spaces, quote,
captured word run, quote. -/
def braceScoreQuotedAt (cs : List Char) : Option String :=
  match cs with
  | [] => none
  | c :: cs0 =>
    if c = openBraceCh then
      match matchLit "score".data (skipOptCh quoteCh (cs0.dropWhile isPySpace)) with
      | none => none
      | some cs1 =>
        match (skipOptCh quoteCh cs1).dropWhile isPySpace with
        | ':' :: cs3 =>
          match cs3.dropWhile isPySpace with
          | q :: cs4 =>
            if q = quoteCh then
              match capWord cs4 with
              | some (cap, q2 :: _) => if q2 = quoteCh then some cap else none
              | _ => none
            else none
          | [] => none
        | _ => none
    else none

/-- `re.search`: try the matcher at every position, leftmost match wins;
the empty position at the end of input is also tried. -/
def searchAux (m : List Char → Option String) : List Char → Option String
  | [] => m []
  | cs@(_ :: rest) =>
    match m cs with
    | some r => some r
    | none => searchAux m rest

/-- Search a string for the first position where the matcher succeeds. -/
def searchIn (m : List Char → Option String) (s : String) : Option String :=
  searchAux m s.data

/-- Search for the `score : value` pattern. -/
def search_score_colon (s : String) : Option String := searchIn scoreColonAt s

/-- Search for the `Score: value` pattern. -/
def search_score_label (s : String) : Option String := searchIn (labelColonAt "score:".data) s

/-- Search for the `Answer: value` pattern. -/
def search_answer_label (s : String) : Option String := searchIn (labelColonAt "answer:".data) s

/-- Search for the braced `score : value` pattern. -/
def search_brace_score (s : String) : Option String := searchIn braceScoreAt s

/-- Search for the braced, quote-mandatory `score : value` pattern. -/
def search_brace_score_quoted (s : String) : Option String := searchIn braceScoreQuotedAt s

/-- Search for the `score is value` pattern. -/
def search_score_is (s : String) : Option String := searchIn scoreIsAt s

/-- The bare leading-token pattern is anchored at the start of the string
(no MULTILINE flag): leading whitespace, optional quote, captured word run,
optional quote, then a mandatory newline. -/
def leadingTokenSearch (s : String) : Option String :=
  match capWord (skipOptCh quoteCh (s.data.dropWhile isPySpace)) with
  | none => none
  | some (cap, rest) =>
    match skipOptCh quoteCh rest with
    | c :: _ => if c = '\n' then some cap else none
    | [] => none

/-- A sub-parser of the cascade: total in Python terms means it always
returns `.ok`; an `.error` value is an uncaught exception escaping it. -/
def ScoreSub : Type := String → Except PyErr (Option JsonVal)

/-- Python `match.group(i)` where `match` is `None` or a match object:
`AttributeError` on `None`. Our embedded patterns always have the requested
group, so the `ValueError` branch of the source never fires. -/
def match_group : Option String → Except PyErr String
  | none => .error .attributeError
  | some cap => .ok cap

/-- `PatternMatchParser.__call__`: regex search, take the capture group,
catching `AttributeError` and `ValueError`. -/
def pattern_sub (search : String → Option String) : ScoreSub := fun s =>
  match match_group (search s) with
  | .ok cap => .ok (some (.str cap))
  | .error e => if e = .attributeError ∨ e = .valueError then .ok none else .error e

/-- `FloatMatchParser.__call__`: `float(text.strip())`, catching
`ValueError`. -/
def float_match_sub : ScoreSub := fun s =>
  match pyFloatE (pyStrip s) with
  | .ok q => .ok (some (.num q))
  | .error e => if e = .valueError then .ok none else .error e

/-- The exception classes caught inside `JSONParser.__call__`. -/
def jsonCaught : List PyErr := [.attributeError, .keyError, .typeError, .valueError]

/-- One iteration of the `JSONParser` loop: parse a candidate string as JSON
and subscript the result at the schema key. -/
def json_try (key s : String) : Except PyErr JsonVal :=
  match jsonLoadsE s with
  | .error e => .error e
  | .ok v => subscriptE v key

/-- The `JSONParser` candidate loop: first success wins, the listed
exception classes are caught and skip to the next candidate. -/
def json_sub_loop (key : String) : List String → Except PyErr (Option JsonVal)
  | [] => .ok none
  | s :: rest =>
    match json_try key s with
    | .ok v => .ok (some v)
    | .error e => if e ∈ jsonCaught then json_sub_loop key rest else .error e

/-- `JSONParser.__call__`: the raw text, then every brace-delimited
substring. -/
def json_sub (key : String) : ScoreSub := fun s => json_sub_loop key (s :: findBraces s)

/-- `DefaultScoreParser.default_sub_parsers`, in source order. -/
def default_subs : List ScoreSub :=
  [float_match_sub, json_sub "score",
   pattern_sub search_score_colon, pattern_sub search_score_label,
   pattern_sub search_answer_label, pattern_sub search_brace_score,
   pattern_sub search_brace_score_quoted, pattern_sub search_score_is,
   pattern_sub leadingTokenSearch]

/-- Python `float(x)` applied to a sub-parser result `x` that may be `None`,
a string, a number, a boolean or a dict: `TypeError` on `None` and dicts,
`ValueError` on non-numeric strings. -/
def pyFloatOfOpt : Option JsonVal → Except PyErr ℚ
  | none => .error .typeError
  | some .null => .error .typeError
  | some (.jbool b) => .ok (if b then 1 else 0)
  | some (.num q) => .ok q
  | some (.str s) => pyFloatE s
  | some (.obj _) => .error .typeError

/-- `DefaultScoreParser.__call__`: try each sub-parser in order; convert its
result with `float`, catching `TypeError` and `ValueError`; accept the value
only when it lies in the inclusive range and, when `force_int` is set, within
`int_tol` of its truncation; otherwise keep trying later sub-parsers; return
`None` only when the list is exhausted. -/
def score_cascade (minS maxS : ℚ) (forceInt : Bool) (intTol : ℚ) :
    List ScoreSub → String → Except PyErr (Option ℚ)
  | [], _ => .ok none
  | p :: rest, text =>
    match p text with
    | .error e => .error e
    | .ok cand =>
      match pyFloatOfOpt cand with
      | .error e =>
        if e = .typeError ∨ e = .valueError then score_cascade minS maxS forceInt intTol rest text
        else .error e
      | .ok q =>
        if minS ≤ q ∧ q ≤ maxS then
          if forceInt then
            if |((py_trunc q : ℚ)) - q| < intTol then .ok (some q)
            else score_cascade minS maxS forceInt intTol rest text
          else .ok (some q)
        else score_cascade minS maxS forceInt intTol rest text

/-- `DefaultScoreParser` invoked with its default sub-parser list. -/
def default_score_call (minS maxS : ℚ) (forceInt : Bool) (intTol : ℚ)
    (text : String) : Except PyErr (Option ℚ) :=
  score_cascade minS maxS forceInt intTol default_subs text

/-- A tag attached to a transcript line: the question ids its marker names
and the exact matched substring, later stripped from the line. -/
structure Tag where
  question_ids : List ℤ
  match_string : String
deriving DecidableEq

/-- Parser bounds configured per cluster (`ParserData` of the source). -/
structure ParserData where
  min_score : ℚ := 0
  max_score : ℚ := 1
  force_int : Bool := false
  int_tol : ℚ := 1 / 10000
deriving DecidableEq

/-- Per-cluster configuration: a prompt and the member question ids. -/
structure ClusterData where
  prompt : String
  questions : List ℤ
  parser_data : ParserData := {}
deriving DecidableEq

/-- An output cluster: its configuration and the assembled lines. -/
structure Cluster where
  data : ClusterData
  lines : List String := []
deriving DecidableEq

/-- The scan loop of `ConvertTagsToTranscript._find_span`, with the current
index and the mutable `start`/`end` slots made explicit (`end` is called
`stop` here because `end` is reserved). A blank tag sets `end` to `None`
when tracking has not started and to the blank line's own index once it has;
a tag lacking the id either continues (nothing tracked yet) or ends the scan;
a containing tag sets `start` the first time and `end` afterwards. -/
def find_span_aux (qId : ℤ) :
    List (Option Tag) → ℕ → Option ℕ → Option ℕ → Option ℕ × Option ℕ
  | [], _, start, stop => (start, stop)
  | t :: rest, i, start, stop =>
    match t with
    | none => find_span_aux qId rest (i + 1) start (if start.isSome then some i else none)
    | some tag =>
      if qId ∈ tag.question_ids then
        match start with
        | none => find_span_aux qId rest (i + 1) (some i) stop
        | some _ => find_span_aux qId rest (i + 1) start (some i)
      else
        if start = none ∧ stop = none then find_span_aux qId rest (i + 1) start stop
        else (start, stop)

/-- `ConvertTagsToTranscript._find_span`. -/
def find_span (qId : ℤ) (tags : List (Option Tag)) : Option ℕ × Option ℕ :=
  find_span_aux qId tags 0 none none

/-- Remove every occurrence of a nonempty pattern from the input
(Python `s.replace(pat, "")`, left-to-right, non-overlapping); fuel exceeds
the input length. -/
def removeAllAux : ℕ → List Char → List Char → List Char
  | 0, _, cs => cs
  | fuel + 1, pat, cs =>
    if pat.isEmpty then cs
    else if pat.isPrefixOf cs then removeAllAux fuel pat (cs.drop pat.length)
    else
      match cs with
      | [] => []
      | c :: rest => c :: removeAllAux fuel pat rest

/-- Python `s.replace(pat, "")`. -/
def py_remove_all (s pat : String) : String :=
  String.mk (removeAllAux s.data.length pat.data s.data)

/-- `ConvertTagsToTranscript._remove_tag`: untagged lines pass through,
tagged lines lose the matched substring and are stripped. In the source the
index is always in range of `tags`; out-of-range indices are modelled as a
blank tag. -/
def remove_tag (line : String) (index : ℕ) (tags : List (Option Tag)) : String :=
  match tags.getD index none with
  | none => line
  | some t => pyStrip (py_remove_all line t.match_string)

/-- The tag-stripping comprehension of `ConvertTagsToTranscript.__call__`:
one stripped line per input line, by enumeration index. -/
def strip_all (lines : List String) (tags : List (Option Tag)) : List String :=
  lines.enum.map (fun p => remove_tag p.2 p.1 tags)

/-- Python tuple comparison on spans, as used by `sorted`. -/
def spanLe (p q : ℤ × ℤ) : Bool :=
  decide (p.1 < q.1 ∨ (p.1 = q.1 ∧ p.2 ≤ q.2))

/-- Insertion step of the sort underlying Python `sorted` on spans. -/
def insertSpan (p : ℤ × ℤ) : List (ℤ × ℤ) → List (ℤ × ℤ)
  | [] => [p]
  | q :: rest => if spanLe p q then p :: q :: rest else q :: insertSpan p rest

/-- Python `sorted` on spans (stable; lexicographic tuple order). -/
def sortSpans : List (ℤ × ℤ) → List (ℤ × ℤ)
  | [] => []
  | p :: rest => insertSpan p (sortSpans rest)

/-- The generator loop of
`ConvertTagsToTranscript._merge_and_sort_overlapping_spans` after the first
span has been taken as the current merged span: a strictly larger start
yields the current span and restarts, anything else merges by extending the
current end. -/
def mergeLoop : ℤ → ℤ → List (ℤ × ℤ) → List (ℤ × ℤ)
  | ms, me, [] => [(ms, me)]
  | ms, me, (s, e) :: rest =>
    if me < s then (ms, me) :: mergeLoop s e rest
    else mergeLoop ms (max me e) rest

/-- `ConvertTagsToTranscript._merge_and_sort_overlapping_spans`. -/
def merge_and_sort_overlapping_spans (spans : List (ℤ × ℤ)) : List (ℤ × ℤ) :=
  match sortSpans spans with
  | [] => []
  | (s, e) :: rest => mergeLoop s e rest

/-- `ConvertTagsToTranscript._find_cluster_spans`: the spans of the
cluster's member questions having both endpoints present (the per-question
span dictionary lookup is exactly `find_span`). Indices are cast from ℕ to
ℤ here; the merge function is stated over ℤ like Python ints. -/
def find_cluster_spans (cd : ClusterData) (tags : List (Option Tag)) : List (ℤ × ℤ) :=
  cd.questions.filterMap (fun q =>
    match find_span q tags with
    | (some s, some e) => some (((s : ℤ), (e : ℤ)))
    | _ => none)

/-- Python slice `lines[s : e + 1]` for nonnegative bounds. -/
def slice_lines (lines : List String) (s e : ℤ) : List String :=
  (lines.drop s.toNat).take (e + 1 - s).toNat

/-- `ConvertTagsToTranscript._fill_cluster`: extend the cluster lines by the
slice of each merged span, in yielded order. -/
def fill_cluster (cd : ClusterData) (lines : List String) (tags : List (Option Tag)) :
    List String :=
  (merge_and_sort_overlapping_spans (find_cluster_spans cd tags)).foldl
    (fun acc p => acc ++ slice_lines lines p.1 p.2) []

/-- `ConvertTagsToTranscript.__call__`: build one cluster per configured
name (in configuration order), strip tags from all lines, and fill each
cluster from the stripped lines. -/
def convert_tags_to_transcript (cfg : List (String × ClusterData))
    (lines : List String) (tags : List (Option Tag)) : List (String × Cluster) :=
  let stripped := strip_all lines tags
  cfg.map (fun nc => (nc.1, { data := nc.2, lines := fill_cluster nc.2 stripped tags }))

/-- Question-id list computation of `Tagger._do_tag`, given the captured
substring of the primary pattern and the configured digit-extraction regex
(abstracted as the `findall` function it induces): a direct integer parse
wins; otherwise all-identical digit groups collapse to one id, and differing
groups each become an id. The `int` conversions inside the fallback are not
guarded by the `try`, so their failures escape. -/
def tag_ids_of_capture (findall : String → List String) (capture : String) :
    Except PyErr (List ℤ) :=
  match pyIntE capture with
  | .ok n => .ok [n]
  | .error e =>
    if e = .valueError then
      let res := findall capture
      if !res.isEmpty && res.all (fun r => r == res.headD "") then
        match pyIntE (res.headD "") with
        | .ok n => .ok [n]
        | .error e2 => .error e2
      else res.mapM pyIntE
    else .error e

/-- `Tagger._do_tag`, abstracted over the configured primary-pattern search
(returning the captured question group and the whole matched substring). -/
def do_tag (search : String → Option (String × String))
    (findall : String → List String) (line : String) : Except PyErr (Option Tag) :=
  match search line with
  | none => .ok none
  | some (capture, m) =>
    match tag_ids_of_capture findall capture with
    | .ok ids => .ok (some ⟨ids, m⟩)
    | .error e => .error e

/-- `Tagger.__call__`: one tag per line, in order. -/
def tagger_call (search : String → Option (String × String))
    (findall : String → List String) (lines : List String) :
    Except PyErr (List (Option Tag)) :=
  lines.mapM (do_tag search findall)

/-- One extraction record: the `ClusterOutput` dataclass of the source
declares exactly the fields `cluster_name`, `llm_score` and `error_message`
— in particular no `llm_output` attribute. -/
structure ClusterOutput where
  cluster_name : String
  llm_score : Option ℚ
  error_message : Option String
deriving DecidableEq

/-- One per-(respondent, run) result (`_IntermediaryResult` of the source);
`data` is the dict keyed by cluster name. -/
structure IntermediaryResult where
  run_id : String
  llm : String
  data : List (String × ClusterOutput)
deriving DecidableEq

/-- `reversed(cfg.ordered_run_ids)` computed in `Consolidator.__init__`. -/
def reversed_run_ids (ordered : List String) : List String := ordered.reverse

/-- The attribute access `cluster_output.llm_output` performed by the
assignment in `Consolidator._keep_only_latest`: `ClusterOutput` declares
`llm_score` but no `llm_output`, so this access raises `AttributeError`
unconditionally — the record's stored fields are never read. -/
def llm_output_attr (_co : ClusterOutput) : Except PyErr (Option ℚ) :=
  .error .attributeError

/-- The inner loop of `Consolidator._keep_only_latest` for one cluster name:
at the first run id (scanning most recent first) that is present for the
respondent and whose data has an entry for the cluster — whatever the
entry's stored value, `None` included — the loop executes
`latest[name] = cluster_output.llm_output`, whose attribute access raises;
if no run has an entry, the cluster is marked explicitly missing with
`None`. -/
def find_latest (revRuns : List String) (aid : List (String × IntermediaryResult))
    (name : String) : Except PyErr (Option ℚ) :=
  match revRuns with
  | [] => .ok none
  | r :: rest =>
    match aid.lookup r with
    | none => find_latest rest aid name
    | some im =>
      match im.data.lookup name with
      | none => find_latest rest aid name
      | some co => llm_output_attr co

/-- The outer loop of `Consolidator._keep_only_latest`: iterate cluster
names in configuration order, skipping names already present in the
accumulated dict (modelled as an insertion-ordered association list); an
exception raised by the inner loop propagates, nothing catches it. -/
def keep_aux (revRuns : List String) (aid : List (String × IntermediaryResult)) :
    List String → List (String × Option ℚ) → Except PyErr (List (String × Option ℚ))
  | [], acc => .ok acc
  | n :: rest, acc =>
    if (acc.lookup n).isSome then keep_aux revRuns aid rest acc
    else
      match find_latest revRuns aid n with
      | .error e => .error e
      | .ok v => keep_aux revRuns aid rest (acc ++ [(n, v)])

/-- `Consolidator._keep_only_latest`, data part: the per-cluster values for
one respondent when the call completes, or the exception it raises. -/
def keep_only_latest (allClusterNames revRuns : List String)
    (aid : List (String × IntermediaryResult)) :
    Except PyErr (List (String × Option ℚ)) :=
  keep_aux revRuns aid allClusterNames []

/-- The llm field of `_CleanResult`: taken from an arbitrary (first) run of
the respondent; the source raises `StopIteration` on an empty dict, modelled
as `none`. -/
def clean_llm (aid : List (String × IntermediaryResult)) : Option String :=
  aid.head?.map (fun p => p.2.llm)

/-- Sorted-by-start relation on spans. -/
abbrev fstLe (p q : ℤ × ℤ) : Prop := p.1 ≤ q.1

/-- Disjointness relation on spans: the first ends strictly before the
second starts. -/
abbrev spanDisj (p q : ℤ × ℤ) : Prop := p.2 < q.1

/-- The set of line indices covered by a list of inclusive spans. -/
def covered (l : List (ℤ × ℤ)) (i : ℤ) : Prop :=
  ∃ p ∈ l, p.1 ≤ i ∧ i ≤ p.2

/-- Fixture for the consolidation example: respondent data over runs
`r1, r2, r3` (oldest to newest) where cluster `X` scored `0.9` in `r1`,
`0.6` in `r2` and has an explicit null entry in `r3`. -/
def c1aid : List (String × IntermediaryResult) :=
  [("r1", ⟨"r1", "llmA", [("X", ⟨"X", some (9/10), none⟩)]⟩),
   ("r2", ⟨"r2", "llmA", [("X", ⟨"X", some (6/10), none⟩)]⟩),
   ("r3", ⟨"r3", "llmA", [("X", ⟨"X", none, none⟩)]⟩)]

theorem insertSpan_perm (p : ℤ × ℤ) (l : List (ℤ × ℤ)) :
    List.Perm (insertSpan p l) (p :: l) := by
  induction l with
  | nil => simp [insertSpan]
  | cons q rest ih =>
    simp only [insertSpan]
    split
    · exact List.Perm.refl _
    · exact (ih.cons q).trans (List.Perm.swap p q rest)

theorem sortSpans_perm (l : List (ℤ × ℤ)) : List.Perm (sortSpans l) l := by
  induction l with
  | nil => simp [sortSpans]
  | cons p rest ih => exact (insertSpan_perm p (sortSpans rest)).trans (ih.cons p)

theorem spanLe_true_le {p q : ℤ × ℤ} (h : spanLe p q = true) : p.1 ≤ q.1 := by
  simp only [spanLe, decide_eq_true_eq] at h
  rcases h with h | ⟨h, _⟩
  · exact le_of_lt h
  · exact le_of_eq h

theorem spanLe_false_le {p q : ℤ × ℤ} (h : ¬ spanLe p q = true) : q.1 ≤ p.1 := by
  simp only [spanLe, decide_eq_true_eq, not_or, not_lt] at h
  exact h.1

theorem insertSpan_sorted (p : ℤ × ℤ) (l : List (ℤ × ℤ)) (h : l.Pairwise fstLe) :
    (insertSpan p l).Pairwise fstLe := by
  induction l with
  | nil => simp [insertSpan]
  | cons q rest ih =>
    rw [List.pairwise_cons] at h
    obtain ⟨hq, hrest⟩ := h
    simp only [insertSpan]
    split
    · next hle =>
      refine List.Pairwise.cons ?_ (List.Pairwise.cons hq hrest)
      intro b hb
      rcases List.mem_cons.mp hb with rfl | hb
      · exact spanLe_true_le hle
      · exact le_trans (spanLe_true_le hle) (hq b hb)
    · next hle =>
      refine List.Pairwise.cons ?_ (ih hrest)
      intro b hb
      have hb2 : b = p ∨ b ∈ rest := List.mem_cons.mp ((insertSpan_perm p rest).mem_iff.mp hb)
      rcases hb2 with rfl | hb2
      · exact spanLe_false_le hle
      · exact hq b hb2

theorem sortSpans_sorted (l : List (ℤ × ℤ)) : (sortSpans l).Pairwise fstLe := by
  induction l with
  | nil => simp [sortSpans]
  | cons p rest ih => exact insertSpan_sorted p (sortSpans rest) ih

theorem mergeLoop_starts (ms me : ℤ) (l : List (ℤ × ℤ)) :
    ∀ p ∈ mergeLoop ms me l, p.1 = ms ∨ ∃ q ∈ l, p.1 = q.1 := by
  induction l generalizing ms me with
  | nil =>
    intro p hp
    simp only [mergeLoop, List.mem_singleton] at hp
    left; rw [hp]
  | cons se rest ih =>
    intro p hp
    obtain ⟨s, e⟩ := se
    simp only [mergeLoop] at hp
    split at hp
    · rcases List.mem_cons.mp hp with rfl | hp2
      · left; rfl
      · rcases ih s e p hp2 with h | ⟨q, hq, h⟩
        · right; exact ⟨(s, e), List.mem_cons_self _ _, h⟩
        · right; exact ⟨q, List.mem_cons_of_mem _ hq, h⟩
    · rcases ih ms (max me e) p hp with h | ⟨q, hq, h⟩
      · left; exact h
      · right; exact ⟨q, List.mem_cons_of_mem _ hq, h⟩

theorem mergeLoop_pairwise (ms me : ℤ) (l : List (ℤ × ℤ)) (h : l.Pairwise fstLe) :
    (mergeLoop ms me l).Pairwise spanDisj := by
  induction l generalizing ms me with
  | nil => simp [mergeLoop]
  | cons se rest ih =>
    obtain ⟨s, e⟩ := se
    rw [List.pairwise_cons] at h
    obtain ⟨hs, hrest⟩ := h
    simp only [mergeLoop]
    split
    · next hlt =>
      refine List.Pairwise.cons ?_ (ih s e hrest)
      intro b hb
      rcases mergeLoop_starts s e rest b hb with h1 | ⟨q, hq, h1⟩
      · show me < b.1
        rw [h1]; exact hlt
      · show me < b.1
        rw [h1]; exact lt_of_lt_of_le hlt (hs q hq)
    · exact ih ms (max me e) hrest

theorem mergeLoop_le (ms me : ℤ) (l : List (ℤ × ℤ)) (h0 : ms ≤ me)
    (h : ∀ q ∈ l, q.1 ≤ q.2) : ∀ p ∈ mergeLoop ms me l, p.1 ≤ p.2 := by
  induction l generalizing ms me with
  | nil =>
    intro p hp
    simp only [mergeLoop, List.mem_singleton] at hp
    rw [hp]; exact h0
  | cons se rest ih =>
    intro p hp
    obtain ⟨s, e⟩ := se
    simp only [mergeLoop] at hp
    split at hp
    · rcases List.mem_cons.mp hp with rfl | hp2
      · exact h0
      · exact ih s e (h (s, e) (List.mem_cons_self _ _))
          (fun q hq => h q (List.mem_cons_of_mem _ hq)) p hp2
    · exact ih ms (max me e) (le_trans h0 (le_max_left _ _))
        (fun q hq => h q (List.mem_cons_of_mem _ hq)) p hp

theorem covered_cons (p : ℤ × ℤ) (l : List (ℤ × ℤ)) (i : ℤ) :
    covered (p :: l) i ↔ (p.1 ≤ i ∧ i ≤ p.2) ∨ covered l i := by
  simp [covered]

theorem covered_perm {l1 l2 : List (ℤ × ℤ)} (h : List.Perm l1 l2) (i : ℤ) :
    covered l1 i ↔ covered l2 i := by
  constructor
  · rintro ⟨p, hp, h2⟩; exact ⟨p, h.mem_iff.mp hp, h2⟩
  · rintro ⟨p, hp, h2⟩; exact ⟨p, h.mem_iff.mpr hp, h2⟩

theorem mergeLoop_covered (ms me : ℤ) (l : List (ℤ × ℤ)) (hsort : l.Pairwise fstLe)
    (hge : ∀ q ∈ l, ms ≤ q.1) (i : ℤ) :
    covered (mergeLoop ms me l) i ↔ (ms ≤ i ∧ i ≤ me) ∨ covered l i := by
  induction l generalizing ms me with
  | nil => simp [mergeLoop, covered]
  | cons se rest ih =>
    obtain ⟨s, e⟩ := se
    rw [List.pairwise_cons] at hsort
    obtain ⟨hs, hrest⟩ := hsort
    have hms : ms ≤ s := hge (s, e) (List.mem_cons_self _ _)
    simp only [mergeLoop]
    split
    · next hlt =>
      rw [covered_cons, ih s e hrest hs, covered_cons]
    · next hnlt =>
      have hsme : s ≤ me := not_lt.mp hnlt
      rw [ih ms (max me e) hrest (fun q hq => le_trans hms (hs q hq)), covered_cons]
      constructor
      · rintro (⟨h1, h2⟩ | hc)
        · rcases le_or_lt i me with hme | hme
          · exact Or.inl ⟨h1, hme⟩
          · have hie : i ≤ e := by
              rcases le_total me e with h3 | h3
              · rwa [max_eq_right h3] at h2
              · rw [max_eq_left h3] at h2; omega
            exact Or.inr (Or.inl ⟨le_trans hsme (le_of_lt hme), hie⟩)
        · exact Or.inr (Or.inr hc)
      · rintro (⟨h1, h2⟩ | ⟨h1, h2⟩ | hc)
        · exact Or.inl ⟨h1, le_trans h2 (le_max_left _ _)⟩
        · exact Or.inl ⟨le_trans hms h1, le_trans h2 (le_max_right _ _)⟩
        · exact Or.inr hc

theorem merge_spans_pairwise (spans : List (ℤ × ℤ)) :
    (merge_and_sort_overlapping_spans spans).Pairwise spanDisj := by
  simp only [merge_and_sort_overlapping_spans]
  split
  · simp
  · next s e rest heq =>
    have hsorted := sortSpans_sorted spans
    rw [heq, List.pairwise_cons] at hsorted
    exact mergeLoop_pairwise s e rest hsorted.2

theorem merge_spans_le (spans : List (ℤ × ℤ)) (h : ∀ p ∈ spans, p.1 ≤ p.2) :
    ∀ p ∈ merge_and_sort_overlapping_spans spans, p.1 ≤ p.2 := by
  simp only [merge_and_sort_overlapping_spans]
  split
  · simp
  · next s e rest heq =>
    have hmem : ∀ p ∈ sortSpans spans, p.1 ≤ p.2 :=
      fun p hp => h p ((sortSpans_perm spans).mem_iff.mp hp)
    refine mergeLoop_le s e rest ?_ ?_
    · exact hmem (s, e) (heq ▸ List.mem_cons_self _ _)
    · exact fun q hq => hmem q (heq ▸ List.mem_cons_of_mem _ hq)

theorem merge_spans_starts (spans : List (ℤ × ℤ)) :
    ∀ p ∈ merge_and_sort_overlapping_spans spans, ∃ q ∈ spans, p.1 = q.1 := by
  simp only [merge_and_sort_overlapping_spans]
  split
  · simp
  · next s e rest heq =>
    intro p hp
    have hmem : ∀ q, q ∈ sortSpans spans → q ∈ spans :=
      fun q hq => (sortSpans_perm spans).mem_iff.mp hq
    rcases mergeLoop_starts s e rest p hp with h1 | ⟨q, hq, h1⟩
    · exact ⟨(s, e), hmem _ (heq ▸ List.mem_cons_self _ _), h1⟩
    · exact ⟨q, hmem _ (heq ▸ List.mem_cons_of_mem _ hq), h1⟩

theorem merge_spans_covered (spans : List (ℤ × ℤ)) (i : ℤ) :
    covered (merge_and_sort_overlapping_spans spans) i ↔ covered spans i := by
  rw [← covered_perm (sortSpans_perm spans) i]
  simp only [merge_and_sort_overlapping_spans]
  split
  · next heq => rw [heq]
  · next s e rest heq =>
    have hsorted := sortSpans_sorted spans
    rw [heq, List.pairwise_cons] at hsorted
    rw [heq, covered_cons, mergeLoop_covered s e rest hsorted.2 hsorted.1 i]

theorem slice_lines_length (lines : List String) (s e : ℤ) :
    (slice_lines lines s e).length = min (e + 1 - s).toNat (lines.length - s.toNat) := by
  simp [slice_lines]

theorem fill_fold_length (lines : List String) :
    ∀ (ms : List (ℤ × ℤ)) (acc : List String) (a : ℤ), 0 ≤ a →
    ms.Pairwise spanDisj → (∀ p ∈ ms, p.1 ≤ p.2) → (∀ p ∈ ms, a ≤ p.1) →
    (ms.foldl (fun acc p => acc ++ slice_lines lines p.1 p.2) acc).length ≤
      acc.length + (lines.length - a.toNat) := by
  intro ms
  induction ms with
  | nil => intro acc a _ _ _ _; simp
  | cons se rest ih =>
    intro acc a ha hpw hle hge
    obtain ⟨s, e⟩ := se
    rw [List.pairwise_cons] at hpw
    obtain ⟨hd, hpw⟩ := hpw
    have hse : s ≤ e := hle (s, e) (List.mem_cons_self _ _)
    have has : a ≤ s := hge (s, e) (List.mem_cons_self _ _)
    simp only [List.foldl_cons]
    have hrec := ih (acc ++ slice_lines lines s e) (e + 1) (by omega) hpw
      (fun p hp => hle p (List.mem_cons_of_mem _ hp))
      (fun p hp => by have := hd p hp; omega)
    refine le_trans hrec ?_
    rw [List.length_append, slice_lines_length]
    have hmn : min (e + 1 - s).toNat (lines.length - s.toNat) ≤ (e + 1 - s).toNat :=
      min_le_left _ _
    have hmn2 : min (e + 1 - s).toNat (lines.length - s.toNat) ≤ lines.length - s.toNat :=
      min_le_right _ _
    omega

theorem fill_fold_mem (lines : List String) :
    ∀ (ms : List (ℤ × ℤ)) (acc : List String) (x : String),
    x ∈ ms.foldl (fun acc p => acc ++ slice_lines lines p.1 p.2) acc → x ∈ acc ∨ x ∈ lines := by
  intro ms
  induction ms with
  | nil => intro acc x hx; exact Or.inl hx
  | cons se rest ih =>
    intro acc x hx
    simp only [List.foldl_cons] at hx
    rcases ih _ x hx with hx2 | hx2
    · rcases List.mem_append.mp hx2 with h | h
      · exact Or.inl h
      · right
        exact List.drop_subset _ _ (List.take_subset _ _ h)
    · exact Or.inr hx2

theorem find_span_aux_inv (qId : ℤ) :
    ∀ (tags : List (Option Tag)) (i : ℕ) (start stop : Option ℕ),
    (∀ s, start = some s → s < i) →
    (∀ e, stop = some e → e < i ∧ ∃ s, start = some s ∧ s < e) →
    ∀ s e, find_span_aux qId tags i start stop = (some s, some e) → s < e := by
  intro tags
  induction tags with
  | nil =>
    intro i start stop hs he s e heq
    simp only [find_span_aux, Prod.mk.injEq] at heq
    obtain ⟨h1, h2⟩ := heq
    obtain ⟨_, s2, hs2, hlt⟩ := he e h2
    rw [h1] at hs2
    injection hs2 with hs2
    rwa [hs2]
  | cons t rest ih =>
    intro i start stop hs he s e heq
    cases t with
    | none =>
      simp only [find_span_aux] at heq
      refine ih (i + 1) start _ (fun s1 h1 => Nat.lt_succ_of_lt (hs s1 h1)) ?_ s e heq
      intro e1 h1
      cases hst : start with
      | none => rw [hst] at h1; simp at h1
      | some s0 =>
        rw [hst] at h1
        simp only [Option.isSome_some, if_true] at h1
        injection h1 with h1
        exact ⟨by omega, s0, rfl, by have := hs s0 hst; omega⟩
    | some tag =>
      simp only [find_span_aux] at heq
      split at heq
      · cases hst : start with
        | none =>
          rw [hst] at heq
          refine ih (i + 1) (some i) stop (by intro s1 h1; injection h1 with h1; omega) ?_ s e heq
          intro e1 h1
          obtain ⟨_, s2, hs2, _⟩ := he e1 h1
          rw [hst] at hs2; exact absurd hs2 (by simp)
        | some s0 =>
          rw [hst] at heq
          refine ih (i + 1) (some s0) (some i) (by intro s1 h1; injection h1 with h1; have := hs s0 hst; omega) ?_ s e heq
          intro e1 h1
          injection h1 with h1
          exact ⟨by omega, s0, rfl, by have := hs s0 hst; omega⟩
      · split at heq
        · exact ih (i + 1) start stop (fun s1 h1 => Nat.lt_succ_of_lt (hs s1 h1))
            (fun e1 h1 => by obtain ⟨h2, s2, hs2, h3⟩ := he e1 h1; exact ⟨by omega, s2, hs2, h3⟩)
            s e heq
        · simp only [Prod.mk.injEq] at heq
          obtain ⟨h1, h2⟩ := heq
          obtain ⟨_, s2, hs2, hlt⟩ := he e h2
          rw [h1] at hs2
          injection hs2 with hs2
          rwa [hs2]

theorem find_span_le (qId : ℤ) (tags : List (Option Tag)) (s e : ℕ)
    (h : find_span qId tags = (some s, some e)) : s < e :=
  find_span_aux_inv qId tags 0 none none (by simp) (by simp) s e h

theorem find_span_aux_fst (qId : ℤ) :
    ∀ (tags : List (Option Tag)) (i : ℕ) (s : ℕ) (stop : Option ℕ),
    (find_span_aux qId tags i (some s) stop).1 = some s := by
  intro tags
  induction tags with
  | nil => intro i s stop; rfl
  | cons t rest ih =>
    intro i s stop
    cases t with
    | none => simp only [find_span_aux, Option.isSome_some, if_true]; exact ih (i + 1) s _
    | some tag =>
      simp only [find_span_aux]
      split
      · exact ih (i + 1) s _
      · split
        · exact ih (i + 1) s _
        · rfl

theorem find_span_aux_start_some (qId : ℤ) :
    ∀ (tags : List (Option Tag)) (i : ℕ),
    (∃ tg : Tag, some tg ∈ tags ∧ qId ∈ tg.question_ids) →
    ((find_span_aux qId tags i none none).1).isSome = true := by
  intro tags
  induction tags with
  | nil =>
    intro i h
    obtain ⟨tg, htg, _⟩ := h
    exact absurd htg (List.not_mem_nil _)
  | cons t rest ih =>
    intro i h
    obtain ⟨tg, htg, hqid⟩ := h
    cases t with
    | none =>
      simp only [find_span_aux, Option.isSome_none, if_false]
      refine ih (i + 1) ⟨tg, ?_, hqid⟩
      rcases List.mem_cons.mp htg with h1 | h1
      · exact absurd h1 (by simp)
      · exact h1
    | some tag =>
      simp only [find_span_aux]
      split
      · rw [find_span_aux_fst]; rfl
      · next hnotin =>
        simp only [and_self, if_true]
        refine ih (i + 1) ⟨tg, ?_, hqid⟩
        rcases List.mem_cons.mp htg with h1 | h1
        · injection h1 with h1
          exact absurd (h1 ▸ hqid) hnotin
        · exact h1

theorem find_span_aux_blank_step (qId : ℤ) (rest : List (Option Tag)) (i s : ℕ)
    (stop : Option ℕ) :
    find_span_aux qId (none :: rest) i (some s) stop =
      find_span_aux qId rest (i + 1) (some s) (some i) := by
  simp [find_span_aux]

theorem find_span_aux_blanks (qId : ℤ) :
    ∀ (k i s : ℕ) (stop : Option ℕ) (rest : List (Option Tag)),
    find_span_aux qId (List.replicate (k + 1) none ++ rest) i (some s) stop =
      find_span_aux qId rest (i + k + 1) (some s) (some (i + k)) := by
  intro k
  induction k with
  | zero =>
    intro i s stop rest
    rw [show List.replicate 1 (none : Option Tag) ++ rest = none :: rest from rfl]
    rw [find_span_aux_blank_step]
    norm_num
  | succ k ih =>
    intro i s stop rest
    rw [show List.replicate (k + 2) (none : Option Tag) ++ rest =
        none :: (List.replicate (k + 1) none ++ rest) from rfl]
    rw [find_span_aux_blank_step, ih (i + 1) s (some i) rest]
    have h1 : i + 1 + k + 1 = i + (k + 1) + 1 := by omega
    have h2 : i + 1 + k = i + (k + 1) := by omega
    rw [h1, h2]

theorem strip_all_length (lines : List String) (tags : List (Option Tag)) :
    (strip_all lines tags).length = lines.length := by
  simp [strip_all]

theorem strip_all_mem (lines : List String) (tags : List (Option Tag)) (x : String)
    (hx : x ∈ strip_all lines tags) :
    ∃ i, i < lines.length ∧ x = remove_tag (lines.getD i "") i tags := by
  simp only [strip_all] at hx
  rw [List.mem_map] at hx
  obtain ⟨p, hp, hfx⟩ := hx
  rw [List.mem_enum_iff_getElem?] at hp
  obtain ⟨hlt, _⟩ := List.getElem?_eq_some_iff.mp hp
  refine ⟨p.1, hlt, ?_⟩
  have hgd : lines.getD p.1 "" = p.2 := by
    rw [List.getD_eq_getElem?_getD, hp]
    rfl
  rw [hgd, ← hfx]

theorem find_cluster_spans_le (cd : ClusterData) (tags : List (Option Tag)) :
    ∀ p ∈ find_cluster_spans cd tags, p.1 ≤ p.2 ∧ 0 ≤ p.1 := by
  intro p hp
  simp only [find_cluster_spans, List.mem_filterMap] at hp
  obtain ⟨q, _, hf⟩ := hp
  rcases h1 : find_span q tags with ⟨a, b⟩
  rw [h1] at hf
  cases a with
  | none => simp at hf
  | some s =>
    cases b with
    | none => simp at hf
    | some e =>
      simp only [Option.some.injEq] at hf
      have hse := find_span_le q tags s e h1
      rw [← hf]
      constructor
      · show (s : ℤ) ≤ (e : ℤ)
        exact_mod_cast le_of_lt hse
      · show (0 : ℤ) ≤ (s : ℤ)
        positivity

theorem convert_lookup (cfg : List (String × ClusterData)) (lines : List String)
    (tags : List (Option Tag)) (name : String) (c : Cluster)
    (h : (convert_tags_to_transcript cfg lines tags).lookup name = some c) :
    ∃ cd : ClusterData, c = { data := cd, lines := fill_cluster cd (strip_all lines tags) tags } := by
  simp only [convert_tags_to_transcript] at h
  induction cfg with
  | nil => simp [List.lookup] at h
  | cons nc rest ih =>
    simp only [List.map_cons, List.lookup] at h
    split at h
    · injection h with h
      exact ⟨nc.2, h.symm⟩
    · exact ih h

theorem fill_cluster_length (cd : ClusterData) (lines : List String)
    (tags : List (Option Tag)) :
    (fill_cluster cd lines tags).length ≤ lines.length := by
  have hin := find_cluster_spans_le cd tags
  have h := fill_fold_length lines (merge_and_sort_overlapping_spans (find_cluster_spans cd tags))
    [] 0 le_rfl
    (merge_spans_pairwise _)
    (merge_spans_le _ (fun p hp => (hin p hp).1))
    (fun p hp => by
      obtain ⟨q, hq, hpq⟩ := merge_spans_starts _ p hp
      rw [hpq]
      exact (hin q hq).2)
  simpa [fill_cluster] using h

theorem fill_cluster_mem (cd : ClusterData) (lines : List String)
    (tags : List (Option Tag)) (x : String) (hx : x ∈ fill_cluster cd lines tags) :
    x ∈ lines := by
  rcases fill_fold_mem lines _ [] x hx with h | h
  · exact absurd h (List.not_mem_nil _)
  · exact h

theorem lookup_append {β : Type} (l1 l2 : List (String × β)) (k : String) :
    (l1 ++ l2).lookup k =
      match l1.lookup k with
      | some v => some v
      | none => l2.lookup k := by
  induction l1 with
  | nil => simp [List.lookup]
  | cons a rest ih =>
    simp only [List.cons_append, List.lookup]
    split
    · rfl
    · exact ih

theorem find_latest_eq_findSome (revRuns : List String)
    (aid : List (String × IntermediaryResult)) (name : String) :
    find_latest revRuns aid name =
      match revRuns.findSome? (fun r => (aid.lookup r).bind
          (fun im => im.data.lookup name)) with
      | some _ => .error .attributeError
      | none => .ok none := by
  induction revRuns with
  | nil => simp [find_latest]
  | cons r rest ih =>
    simp only [find_latest]
    rw [List.findSome?_cons]
    rcases h1 : aid.lookup r with _ | im
    · simp only [h1, Option.none_bind]
      exact ih
    · simp only [h1, Option.some_bind]
      rcases h2 : im.data.lookup name with _ | co
      · simp only [h2]
        exact ih
      · simp only [h2]
        rfl

theorem find_latest_ok (revRuns : List String) (aid : List (String × IntermediaryResult))
    (name : String) (v : Option ℚ) (h : find_latest revRuns aid name = .ok v) : v = none := by
  rw [find_latest_eq_findSome] at h
  split at h
  · exact absurd h (by simp)
  · injection h with h
    exact h.symm

theorem keep_aux_ok_lookup (revRuns : List String) (aid : List (String × IntermediaryResult)) :
    ∀ (names : List String) (acc : List (String × Option ℚ))
      (out : List (String × Option ℚ)), keep_aux revRuns aid names acc = .ok out →
    ∀ (name : String),
      out.lookup name =
        match acc.lookup name with
        | some v => some v
        | none => if name ∈ names then some none else none := by
  intro names
  induction names with
  | nil =>
    intro acc out h name
    simp only [keep_aux] at h
    injection h with h
    rw [← h]
    simp only [List.not_mem_nil, if_false]
    split <;> assumption
  | cons n rest ih =>
    intro acc out h name
    simp only [keep_aux] at h
    split at h
    · next hn =>
      rw [ih acc out h name]
      by_cases hname : name = n
      · subst hname
        rcases Option.isSome_iff_exists.mp hn with ⟨v, hv⟩
        rw [hv]
      · rcases h2 : acc.lookup name with _ | w
        · simp [List.mem_cons, hname]
        · rfl
    · next hn =>
      rcases hf : find_latest revRuns aid n with e | v
      · simp only [hf] at h
        exact absurd h (by simp)
      · simp only [hf] at h
        rw [ih _ out h name, lookup_append]
        have hvnone : v = none := find_latest_ok revRuns aid n v hf
        have hnone : acc.lookup n = none := Option.not_isSome_iff_eq_none.mp (by simpa using hn)
        by_cases hname : name = n
        · subst hname
          rw [hnone]
          simp [List.lookup, List.mem_cons, hvnone]
        · have hbeq : (name == n) = false := beq_eq_false_iff_ne.mpr hname
          rcases h2 : acc.lookup name with _ | w
          · simp [List.lookup, hbeq, List.mem_cons, hname]
          · rfl

theorem score_cascade_range (minS maxS : ℚ) (fi : Bool) (tol : ℚ) (text : String) :
    ∀ (ps : List ScoreSub) (v : ℚ),
    score_cascade minS maxS fi tol ps text = .ok (some v) → minS ≤ v ∧ v ≤ maxS := by
  intro ps
  induction ps with
  | nil => intro v h; simp [score_cascade] at h
  | cons p rest ih =>
    intro v h
    rcases h1 : p text with e | cand
    · simp only [score_cascade, h1] at h
      exact absurd h (by simp)
    · simp only [score_cascade, h1] at h
      rcases h2 : pyFloatOfOpt cand with e | q
      · simp only [h2] at h
        split at h
        · exact ih v h
        · exact absurd h (by simp)
      · simp only [h2] at h
        split at h
        · next hrange =>
          split at h
          · split at h
            · injection h with h
              injection h with h
              rw [← h]; exact hrange
            · exact ih v h
          · injection h with h
            injection h with h
            rw [← h]; exact hrange
        · exact ih v h

theorem score_cascade_skip (minS maxS : ℚ) (fi : Bool) (tol : ℚ) (text : String)
    (ps : List ScoreSub) (p : ScoreSub) (c : JsonVal) (q : ℚ)
    (hp : p text = .ok (some c)) (hq : pyFloatOfOpt (some c) = .ok q)
    (hrange : ¬(minS ≤ q ∧ q ≤ maxS)) :
    score_cascade minS maxS fi tol (p :: ps) text = score_cascade minS maxS fi tol ps text := by
  simp only [score_cascade, hp, hq, if_neg hrange]

theorem float_match_sub_total (s : String) : ∃ r, float_match_sub s = .ok r := by
  unfold float_match_sub pyFloatE
  rcases h : pyFloat (pyStrip s) with _ | q <;> simp [h]

theorem pattern_sub_total (search : String → Option String) (s : String) :
    ∃ r, pattern_sub search s = .ok r := by
  unfold pattern_sub match_group
  rcases h : search s with _ | cap <;> simp [h]

theorem jsonLoadsE_err (s : String) (e : PyErr) (h : jsonLoadsE s = .error e) :
    e = .valueError := by
  unfold jsonLoadsE at h
  rcases h2 : pyJsonLoads s with _ | w
  · rw [h2] at h
    injection h with h
    exact h.symm
  · rw [h2] at h
    exact absurd h (by simp)

theorem json_try_err (key s : String) (e : PyErr) (h : json_try key s = .error e) :
    e ∈ jsonCaught := by
  rcases h1 : jsonLoadsE s with e1 | v
  · simp only [json_try, h1] at h
    injection h with h
    rw [← h, jsonLoadsE_err s e1 h1]
    simp [jsonCaught]
  · simp only [json_try, h1] at h
    rcases v with _ | b | q | str | fs
    · simp only [subscriptE] at h
      injection h with h; rw [← h]; simp [jsonCaught]
    · simp only [subscriptE] at h
      injection h with h; rw [← h]; simp [jsonCaught]
    · simp only [subscriptE] at h
      injection h with h; rw [← h]; simp [jsonCaught]
    · simp only [subscriptE] at h
      injection h with h; rw [← h]; simp [jsonCaught]
    · simp only [subscriptE] at h
      rcases h2 : fs.lookup key with _ | w
      · simp only [h2] at h
        injection h with h
        rw [← h]; simp [jsonCaught]
      · simp only [h2] at h
        exact absurd h (by simp)

theorem json_sub_loop_total (key : String) :
    ∀ l : List String, ∃ r, json_sub_loop key l = .ok r := by
  intro l
  induction l with
  | nil => exact ⟨none, rfl⟩
  | cons s rest ih =>
    simp only [json_sub_loop]
    rcases h : json_try key s with e | v
    · simp only [if_pos (json_try_err key s e h)]
      exact ih
    · exact ⟨some v, rfl⟩

theorem json_sub_total (key s : String) : ∃ r, json_sub key s = .ok r :=
  json_sub_loop_total key (s :: findBraces s)

theorem mapM_except_spec {α β : Type} {ε : Type} (f : α → Except ε β) (d : α) (db : β) :
    ∀ (l : List α) (res : List β), l.mapM f = .ok res →
      res.length = l.length ∧
      ∀ i, i < l.length → f (l.getD i d) = .ok (res.getD i db) := by
  intro l
  induction l with
  | nil =>
    intro res h
    simp only [List.mapM_nil, pure, Except.pure] at h
    injection h with h
    rw [← h]
    exact ⟨rfl, fun i hi => absurd hi (by simp)⟩
  | cons a rest ih =>
    intro res h
    simp only [List.mapM_cons] at h
    rcases h1 : f a with e | b
    · rw [h1] at h
      simp [Bind.bind, Except.bind] at h
    · rw [h1] at h
      rcases h2 : rest.mapM f with e | bs
      · rw [h2] at h
        simp [Bind.bind, Except.bind] at h
      · rw [h2] at h
        simp only [Bind.bind, Except.bind, pure, Except.pure] at h
        injection h with h
        obtain ⟨hlen, hget⟩ := ih bs h2
        rw [← h]
        refine ⟨by simp [hlen], ?_⟩
        intro i hi
        cases i with
        | zero => simpa using h1
        | succ j =>
          simp only [List.getD_cons_succ]
          exact hget j (by simpa using hi)

/-- C1 counterexample: in the claimed scenario — respondent with runs
`r1, r2, r3` (oldest to newest), cluster `X` scoring `0.9` in `r1`, `0.6` in
`r2` and null in `r3` — the consolidator does not yield `0.6` (or any
value): `_keep_only_latest` breaks at the most recent run that has an entry
for the cluster regardless of that entry's stored value, and the assignment
it executes there reads the attribute `llm_output`, which the
`ClusterOutput` dataclass does not declare, so the call raises
`AttributeError`. -/
theorem c1_counterexample :
    keep_only_latest ["X"] (reversed_run_ids ["r1", "r2", "r3"]) c1aid =
      .error .attributeError ∧
    (Except.error PyErr.attributeError : Except PyErr (List (String × Option ℚ))) ≠
      .ok [("X", some (6/10))] := by
  constructor
  · with_unfolding_all rfl
  · simp

/-- C1 (amended): per respondent and cluster, the reverse scan stops at the
first run that is present for the respondent and has an entry for the
cluster — a null stored value is not skipped in favour of older runs — and
the assignment executed there reads the nonexistent attribute `llm_output`,
raising `AttributeError`, so no consolidated value (`0.6` or otherwise) is
produced there. Only a cluster with no entry in any run is consolidated, to
an explicit null; when the call completes, every configured cluster name is
present in the output with that explicit null, never omitted. -/
theorem c1_amended_theorem :
    (∀ (revRuns : List String) (aid : List (String × IntermediaryResult)) (name : String),
        find_latest revRuns aid name =
          match revRuns.findSome? (fun r => (aid.lookup r).bind
              (fun im => im.data.lookup name)) with
          | some _ => .error .attributeError
          | none => .ok none) ∧
    (∀ (names revRuns : List String) (aid : List (String × IntermediaryResult))
        (name : String) (out : List (String × Option ℚ)),
        keep_only_latest names revRuns aid = .ok out → name ∈ names →
        out.lookup name = some none) := by
  constructor
  · exact find_latest_eq_findSome
  · intro names revRuns aid name out h hmem
    unfold keep_only_latest at h
    rw [keep_aux_ok_lookup revRuns aid names [] out h name]
    simp [List.lookup, hmem]

/-- C1 witness: the amended theorem applied to a respondent with no entry
for the configured cluster, whose consolidation completes with an explicit
null. -/
theorem c1_amended_witness :
    ([("X", (none : Option ℚ))] : List (String × Option ℚ)).lookup "X" = some none :=
  c1_amended_theorem.2 ["X"] (reversed_run_ids ["r1"]) [] "X" [("X", none)]
    (by with_unfolding_all rfl) (by simp)

/-- C2 counterexample: for tags `[containing, blank]` and the contained
question id, the span is `(0, 1)` — the blank line's own index became the
span end — whereas the claim demands that the end equal the last
containing-tag index `0`. -/
theorem c2_counterexample :
    find_span 1 [some ⟨[1], "T"⟩, none] = (some 0, some 1) ∧
    (find_span 1 [some ⟨[1], "T"⟩, none]).2 ≠ some 0 := by
  constructor
  · with_unfolding_all rfl
  · with_unfolding_all decide

/-- C2 (amended): once tracking has started, a blank tag never terminates
tracking, but it moves the span's end to the blank line's own index rather
than freezing it at the last containing-tag index: after a containing tag at
index 0 followed by `k` blank lines — whether the input then ends or a
different non-blank tag follows — the span is `(0, k)` (end `none` when
`k = 0`), so trailing blank lines are part of the span. -/
theorem c2_amended_theorem (t : Tag) (qId : ℤ) (hin : qId ∈ t.question_ids)
    (k : ℕ) (t2 : Tag) (hout : qId ∉ t2.question_ids) :
    find_span qId (some t :: List.replicate k none) =
      (some 0, if k = 0 then none else some k) ∧
    find_span qId (some t :: (List.replicate k none ++ [some t2])) =
      (some 0, if k = 0 then none else some k) := by
  constructor
  · unfold find_span
    simp only [find_span_aux, if_pos hin]
    cases k with
    | zero => rfl
    | succ m =>
      rw [show List.replicate (m + 1) (none : Option Tag) =
          List.replicate (m + 1) none ++ [] by simp]
      rw [find_span_aux_blanks qId m 1 0 none []]
      simp only [find_span_aux]
      have h1 : 1 + m = m + 1 := by omega
      rw [h1]
      simp
  · unfold find_span
    simp only [find_span_aux, if_pos hin]
    cases k with
    | zero =>
      simp only [List.replicate, List.nil_append, find_span_aux, if_neg hout]
      simp
    | succ m =>
      rw [find_span_aux_blanks qId m 1 0 none [some t2]]
      simp only [find_span_aux, if_neg hout]
      have h1 : 1 + m = m + 1 := by omega
      rw [h1]
      simp

/-- C2 witness: the amended theorem applied to a concrete tag, question id
and a single blank line, with and without a terminating different tag. -/
theorem c2_amended_witness :
    find_span 1 [some ⟨[1], "T"⟩, none] = (some 0, some 1) ∧
    find_span 1 [some ⟨[1], "T"⟩, none, some ⟨[2], "S"⟩] = (some 0, some 1) := by
  have h := c2_amended_theorem ⟨[1], "T"⟩ 1 (by decide) 1 ⟨[2], "S"⟩ (by decide)
  constructor
  · have h1 := h.1
    simpa using h1
  · have h2 := h.2
    simpa using h2

/-- C3 counterexample: a question id tagged on exactly one line that is the
last line of input yields the half-null span `(some 0, none)` — not a
one-line span — and `_find_cluster_spans` drops such spans, so the line is
not included in the question's cluster: the cluster's line list is empty. -/
theorem c3_counterexample :
    (find_span 1 [some ⟨[1], "T"⟩]).2 = none ∧
    convert_tags_to_transcript [("C", { prompt := "p", questions := [1] })]
        ["hello"] [some ⟨[1], "T"⟩] =
      [("C", { data := { prompt := "p", questions := [1] }, lines := [] })] := by
  constructor
  · with_unfolding_all rfl
  · with_unfolding_all rfl

/-- C3 (amended): for every question id appearing in the question-id list of
at least one tag, the span's start is non-null (tracking always starts), but
the end can remain null: a question id tagged on exactly one line that is
immediately followed by a different non-blank tag, or is the last line,
yields span `(start, none)`, which the cluster-span collection drops, so
that line is not included in the question's cluster. -/
theorem c3_amended_theorem :
    (∀ (qId : ℤ) (tags : List (Option Tag)),
        (∃ tg : Tag, some tg ∈ tags ∧ qId ∈ tg.question_ids) →
        ((find_span qId tags).1).isSome = true) ∧
    find_span 1 [some ⟨[1], "T"⟩] = (some 0, none) ∧
    (∀ (t t2 : Tag) (qId : ℤ), qId ∈ t.question_ids → qId ∉ t2.question_ids →
        find_span qId [some t, some t2] = (some 0, none)) ∧
    convert_tags_to_transcript [("C", { prompt := "p", questions := [1] })]
        ["hello"] [some ⟨[1], "T"⟩] =
      [("C", { data := { prompt := "p", questions := [1] }, lines := [] })] := by
  refine ⟨?_, by with_unfolding_all rfl, ?_, by with_unfolding_all rfl⟩
  · intro qId tags h
    exact find_span_aux_start_some qId tags 0 h
  · intro t t2 qId hin hout
    unfold find_span
    simp only [find_span_aux, if_pos hin, if_neg hout]
    simp

/-- C3 witness: the amended theorem applied to a concrete one-line tag. -/
theorem c3_amended_witness :
    ((find_span 1 [some ⟨[1], "T"⟩]).1).isSome = true ∧
    find_span 1 [some ⟨[1], "T"⟩, some ⟨[2], "S"⟩] = (some 0, none) := by
  constructor
  · exact c3_amended_theorem.1 1 [some ⟨[1], "T"⟩] ⟨⟨[1], "T"⟩, by simp, by decide⟩
  · exact c3_amended_theorem.2.2.1 ⟨[1], "T"⟩ ⟨[2], "S"⟩ 1 (by decide) (by decide)

/-- C4 counterexample: with `force_int` set, `int_tol = 0.0001` and the
default bounds `[0, 1]`, the cascade on `"Score: 1.5"` returns `1`, not
null: the label pattern's word capture cannot cross the decimal point, so
the sub-parser yields the candidate `"1"`, which passes the range and
integer checks. -/
theorem c4_counterexample :
    default_score_call 0 1 true (1/10000) "Score: 1.5" = .ok (some 1) ∧
    (Except.ok (some (1 : ℚ)) : Except PyErr (Option ℚ)) ≠ .ok none := by
  constructor
  · with_unfolding_all rfl
  · simp

/-- C4 (amended): with `force_int` set and `int_tol = 0.0001` (bounds
`[0, 1]`), the cascade on `"Score: 1"` returns `1`, and on `"Score: 1.5"` it
also returns `1` — the candidate extracted by the label pattern is the word
run `"1"`, not `1.5`, so validation passes and the cascade does not return
null. -/
theorem c4_amended_theorem :
    default_score_call 0 1 true (1/10000) "Score: 1" = .ok (some 1) ∧
    default_score_call 0 1 true (1/10000) "Score: 1.5" = .ok (some 1) := by
  constructor
  · with_unfolding_all rfl
  · with_unfolding_all rfl

/-- C5: touching or overlapping spans merge and spans separated by a gap
stay separate: concretely, `(2,5)` and `(4,7)` merge to `(2,7)` while
`(2,3)` and `(5,6)` stay separate; in general, for spans sorted by start,
the pair merges to a single span ending at the larger end exactly when the
second start is at most the first end (touching/overlapping, the spec's
`start ≤ previous end + 0` criterion), and stays separate whenever the
second start exceeds the first end — in particular whenever a full line
index lies strictly between them. -/
theorem c5_theorem :
    merge_and_sort_overlapping_spans [(2, 5), (4, 7)] = [(2, 7)] ∧
    merge_and_sort_overlapping_spans [(2, 3), (5, 6)] = [(2, 3), (5, 6)] ∧
    (∀ s1 e1 s2 e2 : ℤ, s1 ≤ e1 → s2 ≤ e2 → s1 ≤ s2 →
      (s2 ≤ e1 →
        merge_and_sort_overlapping_spans [(s1, e1), (s2, e2)] = [(s1, max e1 e2)]) ∧
      (e1 < s2 →
        merge_and_sort_overlapping_spans [(s1, e1), (s2, e2)] = [(s1, e1), (s2, e2)])) := by
  refine ⟨by with_unfolding_all rfl, by with_unfolding_all rfl, ?_⟩
  intro s1 e1 s2 e2 h1 h2 h12
  simp only [merge_and_sort_overlapping_spans, sortSpans, insertSpan]
  constructor
  · intro hm
    by_cases hle : spanLe (s1, e1) (s2, e2) = true
    · rw [if_pos hle]
      simp only [mergeLoop, if_neg (show ¬ e1 < s2 by omega)]
    · rw [if_neg hle]
      have h21 : s2 ≤ s1 := spanLe_false_le hle
      have heq : s1 = s2 := le_antisymm h12 h21
      simp only [mergeLoop, if_neg (show ¬ e2 < s1 by omega)]
      rw [max_comm e2 e1, heq]
  · intro hg
    have hlt : s1 < s2 := by omega
    have hle : spanLe (s1, e1) (s2, e2) = true := by
      simp [spanLe]
      omega
    rw [if_pos hle]
    simp only [mergeLoop, if_pos hg]

/-- C5 witness: the general pairwise characterization applied to concrete
touching spans. -/
theorem c5_theorem_witness :
    merge_and_sort_overlapping_spans [(0, 1), (1, 2)] = [(0, max 1 2)] :=
  (c5_theorem.2.2 0 1 1 2 (by decide) (by decide) (by decide)).1 (by decide)

/-- C6: the numeric cascade returns the first candidate that converts and
passes validation — an out-of-range candidate does not stop it from trying
later sub-parsers — and every non-null result lies within the inclusive
`[min, max]` range; on input `"7"` with bounds `[0, 5]` the whole default
list is exhausted and the result is null. -/
theorem c6_theorem :
    (∀ (ps : List ScoreSub) (minS maxS : ℚ) (fi : Bool) (tol : ℚ) (text : String) (v : ℚ),
        score_cascade minS maxS fi tol ps text = .ok (some v) → minS ≤ v ∧ v ≤ maxS) ∧
    (∀ (ps : List ScoreSub) (minS maxS : ℚ) (fi : Bool) (tol : ℚ) (text : String)
        (p : ScoreSub) (c : JsonVal) (q : ℚ),
        p text = .ok (some c) → pyFloatOfOpt (some c) = .ok q → ¬(minS ≤ q ∧ q ≤ maxS) →
        score_cascade minS maxS fi tol (p :: ps) text =
          score_cascade minS maxS fi tol ps text) ∧
    default_score_call 0 5 false (1/10000) "7" = .ok none := by
  refine ⟨?_, ?_, by with_unfolding_all rfl⟩
  · intro ps minS maxS fi tol text v h
    exact score_cascade_range minS maxS fi tol text ps v h
  · intro ps minS maxS fi tol text p c q hp hq hrange
    exact score_cascade_skip minS maxS fi tol text ps p c q hp hq hrange

/-- C6 witness: the range property and the out-of-range skip property
applied to concrete sub-parsers. -/
theorem c6_theorem_witness :
    ((0 : ℚ) ≤ 1/2 ∧ (1/2 : ℚ) ≤ 1) ∧
    score_cascade 0 1 false 1
        [fun _ => Except.ok (some (.num 7)), fun _ => Except.ok (some (.num (1/2)))] "x" =
      score_cascade 0 1 false 1 [fun _ => Except.ok (some (.num (1/2)))] "x" := by
  constructor
  · exact c6_theorem.1 [fun _ => Except.ok (some (.num (1/2)))] 0 1 false 1 "x" (1/2)
      (by with_unfolding_all rfl)
  · exact c6_theorem.2.1 [fun _ => Except.ok (some (.num (1/2)))] 0 1 false 1 "x"
      (fun _ => Except.ok (some (.num 7))) (.num 7) 7 rfl rfl (by norm_num)

/-- C9: every sub-parser of the default cascade list is total — for every
input string it returns an `.ok` value (a candidate or `None`) and never
lets an exception escape: each internal failure is caught by the
sub-parser's own `except` clause. -/
theorem c9_theorem : ∀ p ∈ default_subs, ∀ s : String, ∃ r, p s = Except.ok r := by
  intro p hp s
  simp only [default_subs, List.mem_cons, List.not_mem_nil, or_false] at hp
  rcases hp with rfl | rfl | rfl | rfl | rfl | rfl | rfl | rfl | rfl
  · exact float_match_sub_total s
  · exact json_sub_total "score" s
  · exact pattern_sub_total _ s
  · exact pattern_sub_total _ s
  · exact pattern_sub_total _ s
  · exact pattern_sub_total _ s
  · exact pattern_sub_total _ s
  · exact pattern_sub_total _ s
  · exact pattern_sub_total _ s

/-- C9 witness: totality of the first sub-parser on a non-numeric string. -/
theorem c9_theorem_witness : ∃ r, float_match_sub "abc" = Except.ok r :=
  c9_theorem float_match_sub (by simp [default_subs]) "abc"

/-- C10: for every list of well-formed spans, the merge function yields
pairwise disjoint spans in strictly ascending order (each span ends strictly
before the next begins), every output span is well-formed, and the set of
covered line indices is preserved exactly. -/
theorem c10_theorem (spans : List (ℤ × ℤ)) (h : ∀ p ∈ spans, p.1 ≤ p.2) :
    (merge_and_sort_overlapping_spans spans).Pairwise spanDisj ∧
    (∀ p ∈ merge_and_sort_overlapping_spans spans, p.1 ≤ p.2) ∧
    (∀ i : ℤ, covered (merge_and_sort_overlapping_spans spans) i ↔ covered spans i) :=
  ⟨merge_spans_pairwise spans, merge_spans_le spans h, merge_spans_covered spans⟩

/-- C10 witness: the merge invariants applied to two overlapping concrete
spans. -/
theorem c10_theorem_witness :
    (merge_and_sort_overlapping_spans [(2, 5), (1, 3)]).Pairwise spanDisj ∧
    (∀ p ∈ merge_and_sort_overlapping_spans [(2, 5), (1, 3)], p.1 ≤ p.2) ∧
    (∀ i : ℤ, covered (merge_and_sort_overlapping_spans [(2, 5), (1, 3)]) i ↔
      covered [(2, 5), (1, 3)] i) :=
  c10_theorem [(2, 5), (1, 3)] (by decide)

/-- C8: for equal-length line and tag lists, every output cluster of the
segmenter has at most as many lines as the input, and every line it contains
equals the tag-stripped form of some input line. -/
theorem c8_theorem (cfg : List (String × ClusterData)) (lines : List String)
    (tags : List (Option Tag)) (_hlen : lines.length = tags.length)
    (name : String) (c : Cluster)
    (h : (convert_tags_to_transcript cfg lines tags).lookup name = some c) :
    c.lines.length ≤ lines.length ∧
    ∀ x ∈ c.lines, ∃ i, i < lines.length ∧ x = remove_tag (lines.getD i "") i tags := by
  obtain ⟨cd, rfl⟩ := convert_lookup cfg lines tags name c h
  constructor
  · have hb := fill_cluster_length cd (strip_all lines tags) tags
    rwa [strip_all_length] at hb
  · intro x hx
    exact strip_all_mem lines tags x (fill_cluster_mem cd _ tags x hx)

/-- C8 witness: the invariant applied to a one-line transcript with one
cluster. -/
theorem c8_theorem_witness :
    ({ data := { prompt := "p", questions := [1] }, lines := [] } : Cluster).lines.length ≤
      (["hello"] : List String).length ∧
    ∀ x ∈ ({ data := { prompt := "p", questions := [1] }, lines := [] } : Cluster).lines,
      ∃ i, i < (["hello"] : List String).length ∧
        x = remove_tag ((["hello"] : List String).getD i "") i [none] :=
  c8_theorem [("C", { prompt := "p", questions := [1] })] ["hello"] [none] rfl "C"
    { data := { prompt := "p", questions := [1] }, lines := [] }
    (by with_unfolding_all rfl)

/-- C7: the Tagger produces exactly one optional tag per input line, in
order, and computes the tag's question-id list from the captured substring
as follows: a capture parsing directly as an integer yields that single id;
otherwise the digit groups extracted from the capture collapse to one id
when all are textually identical and at least one exists, and yield one id
per group in extraction order when they differ. Concretely, capture `"11"`
yields `[11]`, extracted groups `["1","6"]` yield `[1, 6]`, and groups
`["1","1"]` collapse to `[1]`. -/
theorem c7_theorem :
    (∀ (search : String → Option (String × String)) (findall : String → List String)
        (lines : List String) (ts : List (Option Tag)),
        tagger_call search findall lines = .ok ts →
        ts.length = lines.length ∧
        ∀ i, i < lines.length →
          do_tag search findall (lines.getD i "") = .ok (ts.getD i none)) ∧
    (∀ (findall : String → List String) (capture : String) (n : ℤ),
        pyIntE capture = .ok n → tag_ids_of_capture findall capture = .ok [n]) ∧
    (∀ (findall : String → List String) (capture : String) (n : ℤ),
        pyIntE capture = .error .valueError →
        findall capture ≠ [] →
        (∀ r ∈ findall capture, r = (findall capture).headD "") →
        pyIntE ((findall capture).headD "") = .ok n →
        tag_ids_of_capture findall capture = .ok [n]) ∧
    (∀ (findall : String → List String) (capture : String) (ns : List ℤ),
        pyIntE capture = .error .valueError →
        ¬(findall capture ≠ [] ∧ ∀ r ∈ findall capture, r = (findall capture).headD "") →
        (findall capture).mapM pyIntE = .ok ns →
        tag_ids_of_capture findall capture = .ok ns) ∧
    tag_ids_of_capture (fun _ => []) "11" = .ok [11] ∧
    tag_ids_of_capture (fun _ => ["1", "6"]) "1/6" = .ok [1, 6] ∧
    tag_ids_of_capture (fun _ => ["1", "1"]) "1x1" = .ok [1] := by
  refine ⟨?_, ?_, ?_, ?_, by with_unfolding_all rfl, by with_unfolding_all rfl,
    by with_unfolding_all rfl⟩
  · intro search findall lines ts h
    exact mapM_except_spec (do_tag search findall) "" none lines ts h
  · intro findall capture n h
    simp only [tag_ids_of_capture, h]
  · intro findall capture n h hne hall hhead
    have hb : (!(findall capture).isEmpty &&
        (findall capture).all (fun r => r == (findall capture).headD "")) = true := by
      simp only [Bool.and_eq_true, Bool.not_eq_true', List.all_eq_true, beq_iff_eq]
      exact ⟨by simpa [List.isEmpty_iff] using hne, hall⟩
    simp only [tag_ids_of_capture, h, if_pos rfl, hb, if_true, hhead]
  · intro findall capture ns h hnot hmap
    have hb : (!(findall capture).isEmpty &&
        (findall capture).all (fun r => r == (findall capture).headD "")) = false := by
      rcases Bool.eq_false_or_eq_true (!(findall capture).isEmpty &&
        (findall capture).all (fun r => r == (findall capture).headD "")) with ht | hf
      · exfalso
        apply hnot
        simp only [Bool.and_eq_true, Bool.not_eq_true', List.all_eq_true, beq_iff_eq] at ht
        exact ⟨by simpa [List.isEmpty_iff] using ht.1, ht.2⟩
      · exact hf
    simp only [tag_ids_of_capture, h, if_pos rfl, hb, if_false, hmap]
    simp

/-- C7 witness: the per-line mapping applied to a concrete one-line
transcript whose tag captures `"11"`, and the direct integer parse of that
capture. -/
theorem c7_theorem_witness :
    (([some ⟨[11], "Q11.."⟩] : List (Option Tag)).length = (["Q11.. text"] : List String).length) ∧
    tag_ids_of_capture (fun _ => ([] : List String)) "11" = .ok [11] := by
  constructor
  · exact (c7_theorem.1
      (fun l => if l = "Q11.. text" then some ("11", "Q11..") else none)
      (fun _ => []) ["Q11.. text"] [some ⟨[11], "Q11.."⟩]
      (by with_unfolding_all rfl)).1
  · exact c7_theorem.2.1 (fun _ => []) "11" 11 (by with_unfolding_all rfl)
